import Mathlib

/-!
Verification of the Python-Portfolio-Tracker valuation engine.

The definitions below are a shallow embedding of the two source files
`python_portfolio_tracker.py` (CLI) and `streamlit_app.py` (dashboard).
Real-valued columns are embedded as `ℚ` (exact rationals standing for the
IEEE doubles of pandas); the one place where IEEE non-finiteness is
observable in the code, the `pnl_pct = pnl_abs / cost_basis` division, is
embedded with an explicit four-point float model `PFloat` so that the
inf/NaN outcomes of a zero denominator are representable.
-/

namespace Portfolio

/-- Four-point model of an IEEE double as produced by a single division of
two finite values: a finite rational, the two infinities, or NaN. -/
inductive PFloat where
  | finite : ℚ → PFloat
  | posInf : PFloat
  | negInf : PFloat
  | nan : PFloat
deriving DecidableEq

/-- IEEE-754 division of two finite doubles, as numpy/pandas performs it for
`pnl_abs / cost_basis`: finite quotient when the denominator is nonzero,
NaN for 0/0, and a signed infinity for x/0 with x nonzero. -/
def fdiv (a b : ℚ) : PFloat :=
  if b ≠ 0 then PFloat.finite (a / b)
  else if a = 0 then PFloat.nan
  else if 0 < a then PFloat.posInf
  else PFloat.negInf

/-- pandas `.fillna(0)`: replaces NaN by 0 and leaves every other value,
including the infinities, unchanged (streamlit_app.py lines 173 and 182). -/
def fillna0 : PFloat → PFloat
  | PFloat.nan => PFloat.finite 0
  | x => x

/-- One persisted row of the `positions` table (schema in both files):
id INTEGER PRIMARY KEY AUTOINCREMENT, symbol, shares, cost_per_share,
trade_date, note. -/
structure Position where
  id : Nat
  symbol : String
  shares : ℚ
  cost_per_share : ℚ
  trade_date : String
  note : String
deriving DecidableEq

/-- One row of an imported CSV file: the interchange columns
symbol, shares, cost_per_share, trade_date, note (no id; SQLite assigns it). -/
structure CsvRow where
  symbol : String
  shares : ℚ
  cost_per_share : ℚ
  trade_date : String
  note : String
deriving DecidableEq

/-- One row of the computed metric table: the position columns joined with
current_price and the four derived columns (python_portfolio_tracker.py
lines 91-95; streamlit_app.py lines 169-173). -/
structure ValRow where
  id : Nat
  symbol : String
  shares : ℚ
  cost_per_share : ℚ
  trade_date : String
  note : String
  current_price : ℚ
  current_value : ℚ
  cost_basis : ℚ
  pnl_abs : ℚ
  pnl_pct : PFloat
deriving DecidableEq

/-- The CLI summary result: the metric table plus the three totals
(python_portfolio_tracker.py line 99). -/
structure SummaryResult where
  positions : List ValRow
  total_value : ℚ
  total_cost : ℚ
  total_pnl : ℚ
deriving DecidableEq

/-- One row of the dashboard's per-symbol aggregation `agg`
(streamlit_app.py lines 176-182). -/
structure AggRow where
  symbol : String
  shares : ℚ
  cost_basis : ℚ
  current_value : ℚ
  pnl_abs : ℚ
  pnl_pct : PFloat
deriving DecidableEq

/-- An aggregation row after the `allocation_pct` column is added
(streamlit_app.py line 186). -/
structure AggRowA extends AggRow where
  allocation_pct : ℚ
deriving DecidableEq

/-- Python `str.upper()` on a ticker string, character by character (ASCII;
ticker symbols are ASCII in this program). -/
def strUpper (s : String) : String := String.mk (s.data.map Char.toUpper)

/-- Uppercasing of the symbol column, as done by
`PortfolioAnalyzer.__init__` (line 69) and `read_positions_df` (line 45).
Both sources guard with `if not df.empty`, which is a no-op difference:
mapping over the empty list is the empty list. -/
def upperSymbols (df : List Position) : List Position :=
  df.map (fun p => { p with symbol := strUpper p.symbol })

/-- pandas `Series.unique()`: the distinct values in order of first
occurrence (used for the symbol list in both price fetchers). -/
def uniqueFirst : List String → List String
  | [] => []
  | s :: rest => s :: (uniqueFirst rest).filter (fun x => !(x == s))

/-- Key lookup in a (symbol, price) table: the dict lookup behind
`Series.map(prices)` and the match of a left merge on `symbol`. -/
def lookupPrice (prices : List (String × ℚ)) (s : String) : Option ℚ :=
  (prices.find? (fun kv => kv.1 == s)).map (fun kv => kv.2)

/- ------------------------- storage operations ------------------------- -/

/-- `PortfolioDB.add_position` (python_portfolio_tracker.py lines 49-55):
inserts one row, uppercasing the symbol; SQLite assigns the next id. -/
def add_position (t : List Position) (nextId : Nat) (symbol : String)
    (shares cost_per_share : ℚ) (trade_date note : String) : List Position :=
  t ++ [{ id := nextId, symbol := strUpper symbol, shares := shares,
          cost_per_share := cost_per_share, trade_date := trade_date, note := note }]

/-- `add_trade` (streamlit_app.py lines 76-91): same insert, with
`symbol = symbol.upper()` before the INSERT. -/
def add_trade (t : List Position) (nextId : Nat) (symbol : String)
    (shares price : ℚ) (date note : String) : List Position :=
  t ++ [{ id := nextId, symbol := strUpper symbol, shares := shares,
          cost_per_share := price, trade_date := date, note := note }]

/-- `import_csv_to_db` (streamlit_app.py lines 94-98): `df.to_sql(...,
if_exists="append")` appends the CSV rows one after another, SQLite
assigning consecutive ids; the symbol column is persisted exactly as read
from the file — no uppercasing happens on this write path. -/
def import_csv_to_db (t : List Position) (nextId : Nat) : List CsvRow → List Position
  | [] => t
  | r :: rest =>
      import_csv_to_db
        (t ++ [{ id := nextId, symbol := r.symbol, shares := r.shares,
                 cost_per_share := r.cost_per_share, trade_date := r.trade_date,
                 note := r.note }]) (nextId + 1) rest

/-- `PortfolioDB.delete_position` (lines 60-63):
DELETE FROM positions WHERE id = ?. Keeps exactly the rows whose id differs. -/
def delete_position (t : List Position) (pid : Nat) : List Position :=
  t.filter (fun r => !(r.id == pid))

/- --------------------------- CLI valuation ---------------------------- -/

/-- `PortfolioAnalyzer.fetch_prices` (lines 71-85): over the unique symbols
of the positions table, one external lookup each; an exception or an empty
history yields the 0.0 sentinel. The external outcome is the argument
`quote : String → Option ℚ` (`none` = lookup failed or empty). An empty
positions table short-circuits to an empty price table. -/
def fetch_prices (positions : List Position) (quote : String → Option ℚ) :
    List (String × ℚ) :=
  if positions.isEmpty then []
  else (uniqueFirst (positions.map (fun p => p.symbol))).map
    (fun s => (s, (quote s).getD 0))

/-- One metric row of the CLI (`summary` lines 92-95). Note line 95 divides
`pnl_abs / cost_basis` with no guard of any kind: a zero cost basis yields
NaN or a signed infinity, exactly as `fdiv` states. -/
def mkValRow (p : Position) (price : ℚ) : ValRow :=
  let cv := p.shares * price
  let cb := p.shares * p.cost_per_share
  { id := p.id, symbol := p.symbol, shares := p.shares,
    cost_per_share := p.cost_per_share, trade_date := p.trade_date,
    note := p.note, current_price := price, current_value := cv,
    cost_basis := cb, pnl_abs := cv - cb, pnl_pct := fdiv (cv - cb) cb }

/-- The merged metric table of `summary` (line 91): a left merge of the
positions with the price table on `symbol`. The price table built by
`fetch_prices` carries exactly the distinct symbols of `positions`
(lemma `lookupPrice_fetch_prices` below), so every left row matches exactly
one price row and the `.getD 0` default, standing for the NaN of an
unmatched left join, is never exercised. -/
def summaryRows (df : List Position) (quote : String → Option ℚ) : List ValRow :=
  let prices := fetch_prices df quote
  df.map (fun p => mkValRow p ((lookupPrice prices p.symbol).getD 0))

/-- total_value of the ungrouped metric table (line 96; the spec's
computeTotals). -/
def totalValueUngrouped (rows : List ValRow) : ℚ :=
  (rows.map (fun r => r.current_value)).sum

/-- total_cost of the ungrouped metric table (line 97). -/
def totalCostUngrouped (rows : List ValRow) : ℚ :=
  (rows.map (fun r => r.cost_basis)).sum

/-- `PortfolioAnalyzer.summary` (lines 87-99): on an empty positions table
it returns the empty dict (modelled `none`, line 89); otherwise the metric
table plus the three totals. -/
def summary (df : List Position) (quote : String → Option ℚ) :
    Option SummaryResult :=
  if df.isEmpty then none
  else
    let rows := summaryRows df quote
    let tv := totalValueUngrouped rows
    let tc := totalCostUngrouped rows
    some { positions := rows, total_value := tv, total_cost := tc,
           total_pnl := tv - tc }

/-- What the `view` branch of `main` prints (lines 182-190): the
"No positions." message when `summary` returned the empty dict, otherwise
the totals line and the table. -/
inductive ViewOutput where
  | noPositions : ViewOutput
  | report : SummaryResult → ViewOutput
deriving DecidableEq

/-- The `view` command (lines 182-190): list positions, build the analyzer
(which uppercases symbols on a copy), take its summary, and report. -/
def viewCmd (raw : List Position) (quote : String → Option ℚ) : ViewOutput :=
  match summary (upperSymbols raw) quote with
  | none => ViewOutput.noPositions
  | some s => ViewOutput.report s

/- ------------------------ dashboard valuation ------------------------- -/

/-- `fetch_current_prices` (streamlit_app.py lines 51-69): one lookup per
symbol; every failure path (exception, empty history with no info price)
stores the 0.0 sentinel, so the returned dict has a value for every
requested symbol. -/
def fetch_current_prices (symbols : List String) (quote : String → Option ℚ) :
    List (String × ℚ) :=
  symbols.map (fun s => (s, (quote s).getD 0))

/-- One metric row of the dashboard (lines 169-173). Line 173 is
`(pnl_abs / cost_basis).fillna(0)`: the NaN of 0/0 becomes 0, but a signed
infinity from x/0 with x nonzero passes through `fillna` untouched. -/
def mkDashRow (p : Position) (price : ℚ) : ValRow :=
  let cv := p.shares * price
  let cb := p.shares * p.cost_per_share
  { id := p.id, symbol := p.symbol, shares := p.shares,
    cost_per_share := p.cost_per_share, trade_date := p.trade_date,
    note := p.note, current_price := price, current_value := cv,
    cost_basis := cb, pnl_abs := cv - cb,
    pnl_pct := fillna0 (fdiv (cv - cb) cb) }

/-- The dashboard metric block (lines 167-173): fetch one price per unique
symbol, `df['symbol'].map(prices)`, then the four derived columns. As for
the CLI, the price dict covers every symbol of `df`, so the `.getD 0`
default standing for an unmatched map result is never exercised. -/
def dashRows (df : List Position) (quote : String → Option ℚ) : List ValRow :=
  let prices := fetch_current_prices (uniqueFirst (df.map (fun p => p.symbol))) quote
  df.map (fun p => mkDashRow p ((lookupPrice prices p.symbol).getD 0))

/-- Per-symbol column sum used by the groupby aggregation. -/
def sumBy (rows : List ValRow) (f : ValRow → ℚ) (s : String) : ℚ :=
  ((rows.filter (fun r => r.symbol == s)).map f).sum

/-- The dashboard aggregation `agg` (lines 176-182): groupby symbol summing
shares, cost_basis, current_value and pnl_abs, then
`pnl_pct = (pnl_abs / cost_basis).fillna(0)` recomputed from the sums.
pandas groupby emits its groups in sorted key order; this embedding uses
first-occurrence order, which is immaterial to every property below (all
are sums over, or pointwise statements about, the group rows). -/
def agg (rows : List ValRow) : List AggRow :=
  (uniqueFirst (rows.map (fun r => r.symbol))).map (fun s =>
    { symbol := s
      shares := sumBy rows (fun r => r.shares) s
      cost_basis := sumBy rows (fun r => r.cost_basis) s
      current_value := sumBy rows (fun r => r.current_value) s
      pnl_abs := sumBy rows (fun r => r.pnl_abs) s
      pnl_pct := fillna0 (fdiv (sumBy rows (fun r => r.pnl_abs) s)
                               (sumBy rows (fun r => r.cost_basis) s)) })

/-- `total_value = agg['current_value'].sum()` (line 183). -/
def total_value_agg (rows : List ValRow) : ℚ :=
  ((agg rows).map (fun a => a.current_value)).sum

/-- `total_cost = agg['cost_basis'].sum()` (line 184). -/
def total_cost_agg (rows : List ValRow) : ℚ :=
  ((agg rows).map (fun a => a.cost_basis)).sum

/-- Line 186: `agg['allocation_pct'] = agg['current_value'] /
(total_value if total_value else 1)` — Python truthiness: divide by the
total when it is nonzero, by 1 when the total is 0. -/
def aggWithAllocation (rows : List ValRow) : List AggRowA :=
  (agg rows).map (fun a =>
    { toAggRow := a
      allocation_pct := a.current_value /
        (if total_value_agg rows ≠ 0 then total_value_agg rows else 1) })

/- ------------------- heap model for the frame claim ------------------- -/

/-- A heap of dataframe objects, to make Python aliasing and in-place
column assignment observable: each cell is one positions dataframe, and a
reference is an index into the heap. -/
structure Heap where
  cells : List (List Position)

/-- Allocation of a fresh dataframe object (`.copy()` allocates). -/
def halloc (h : Heap) (t : List Position) : Heap × Nat :=
  (⟨h.cells ++ [t]⟩, h.cells.length)

/-- Dereference. -/
def hget (h : Heap) (r : Nat) : List Position :=
  h.cells.getD r []

/-- In-place mutation of the dataframe behind a reference (a pandas column
assignment such as `self.positions['symbol'] = ...`). -/
def hset (h : Heap) (r : Nat) (t : List Position) : Heap :=
  ⟨h.cells.set r t⟩

/-- `PortfolioAnalyzer.__init__` (lines 66-69):
`self.positions = df_positions.copy()` allocates a fresh cell holding the
caller's data, and the symbol-uppercasing column assignment then mutates
that fresh cell in place. Returns the new heap and the reference held in
`self.positions`. -/
def analyzerInitH (h : Heap) (dfRef : Nat) : Heap × Nat :=
  let a := halloc h (hget h dfRef)
  (hset a.1 a.2 (upperSymbols (hget a.1 a.2)), a.2)

/-- `PortfolioAnalyzer.summary` as a heap operation: it reads
`self.positions`; the merge on line 91 builds a fresh dataframe and the
column assignments of lines 92-95 mutate only that fresh frame, so no
positions cell of the heap is written. -/
def summaryH (h : Heap) (posRef : Nat) (quote : String → Option ℚ) :
    Heap × Option SummaryResult :=
  (h, summary (hget h posRef) quote)

/- -------------------- shared concrete test values --------------------- -/

/-- Default row used by positional `getD` access in theorem statements. -/
def pos0 : Position :=
  { id := 0, symbol := "", shares := 0, cost_per_share := 0,
    trade_date := "", note := "" }

/-- Default row used by positional `getD` access in theorem statements. -/
def row0 : ValRow := mkValRow pos0 0

/-- A concrete stored position used by witnesses. -/
def pw : Position :=
  { id := 1, symbol := "A", shares := 2, cost_per_share := 3,
    trade_date := "2024-01-01", note := "" }

/-- A concrete quote function used by witnesses: every lookup succeeds at 5. -/
def qw : String → Option ℚ := fun _ => some 5

/- ---------------------------- list lemmas ----------------------------- -/

theorem uniqueFirst_nodup : ∀ l : List String, (uniqueFirst l).Nodup := by
  intro l
  induction l with
  | nil => simp [uniqueFirst]
  | cons s rest ih =>
      simp only [uniqueFirst, List.nodup_cons]
      refine ⟨?_, ih.filter _⟩
      intro hmem
      have := List.of_mem_filter hmem
      simp at this

theorem mem_uniqueFirst : ∀ (a : String) (l : List String),
    a ∈ uniqueFirst l ↔ a ∈ l := by
  intro a l
  induction l with
  | nil => simp [uniqueFirst]
  | cons s rest ih =>
      simp only [uniqueFirst, List.mem_cons, List.mem_filter, ih]
      constructor
      · rintro (h | ⟨h, _⟩)
        · exact Or.inl h
        · exact Or.inr h
      · rintro (h | h)
        · exact Or.inl h
        · by_cases hs : a = s
          · exact Or.inl hs
          · exact Or.inr ⟨h, by simp [hs]⟩

theorem lookupPrice_map_of_mem (f : String → ℚ) :
    ∀ (ks : List String) (sym : String), sym ∈ ks →
      lookupPrice (ks.map (fun s => (s, f s))) sym = some (f sym) := by
  intro ks
  induction ks with
  | nil => intro sym h; simp at h
  | cons k rest ih =>
      intro sym h
      by_cases hk : k = sym
      · subst hk
        have hfind :
            List.find? (fun kv => kv.1 == k)
              ((k, f k) :: rest.map (fun s => (s, f s))) = some (k, f k) :=
          List.find?_cons_of_pos _ (by simp)
        simp [lookupPrice, hfind]
      · have hmem : sym ∈ rest := by
          rcases List.mem_cons.mp h with h1 | h1
          · exact absurd h1.symm hk
          · exact h1
        have hrec := ih sym hmem
        have hfind :
            List.find? (fun kv => kv.1 == sym)
              ((k, f k) :: rest.map (fun s => (s, f s))) =
              List.find? (fun kv => kv.1 == sym) (rest.map (fun s => (s, f s))) :=
          List.find?_cons_of_neg _ (by simp [hk])
        simp only [lookupPrice, List.map_cons] at hrec ⊢
        rw [hfind]
        exact hrec

theorem getD_map_lt {α β : Type} (f : α → β) :
    ∀ (l : List α) (i : Nat), i < l.length → ∀ (d : β) (dp : α),
      (l.map f).getD i d = f (l.getD i dp) := by
  intro l
  induction l with
  | nil => intro i h; simp at h
  | cons a t ih =>
      intro i h d dp
      cases i with
      | zero => simp
      | succ n =>
          simp only [List.map_cons, List.getD_cons_succ]
          exact ih n (by simpa using h) d dp

theorem getD_mem_of_lt {α : Type} :
    ∀ (l : List α) (i : Nat), i < l.length → ∀ d : α, l.getD i d ∈ l := by
  intro l
  induction l with
  | nil => intro i h; simp at h
  | cons a t ih =>
      intro i h d
      cases i with
      | zero => simp
      | succ n =>
          simp only [List.getD_cons_succ, List.mem_cons]
          exact Or.inr (ih n (by simpa using h) d)

theorem getD_set_ne {α : Type} :
    ∀ (l : List α) (n i : Nat), i ≠ n → ∀ (v d : α),
      (l.set n v).getD i d = l.getD i d := by
  intro l
  induction l with
  | nil => intro n i _ v d; simp
  | cons a t ih =>
      intro n i hne v d
      cases n with
      | zero =>
          cases i with
          | zero => exact absurd rfl hne
          | succ m => simp
      | succ n' =>
          cases i with
          | zero => simp
          | succ m =>
              simp only [List.set_cons_succ, List.getD_cons_succ]
              exact ih n' m (fun h => hne (by omega)) v d

/- -------------------- price-coverage helper lemmas -------------------- -/

theorem lookupPrice_fetch_current_prices (df : List Position)
    (quote : String → Option ℚ) (p : Position) (hp : p ∈ df) :
    lookupPrice
      (fetch_current_prices (uniqueFirst (df.map (fun r => r.symbol))) quote)
      p.symbol = some ((quote p.symbol).getD 0) := by
  have hmem : p.symbol ∈ uniqueFirst (df.map (fun r => r.symbol)) :=
    (mem_uniqueFirst _ _).mpr (List.mem_map.mpr ⟨p, hp, rfl⟩)
  exact lookupPrice_map_of_mem (fun s => (quote s).getD 0) _ _ hmem

theorem lookupPrice_fetch_prices (df : List Position)
    (quote : String → Option ℚ) (p : Position) (hp : p ∈ df) :
    lookupPrice (fetch_prices df quote) p.symbol =
      some ((quote p.symbol).getD 0) := by
  have hne : ¬ df.isEmpty := by
    cases df with
    | nil => simp at hp
    | cons a t => simp
  have hmem : p.symbol ∈ uniqueFirst (df.map (fun r => r.symbol)) :=
    (mem_uniqueFirst _ _).mpr (List.mem_map.mpr ⟨p, hp, rfl⟩)
  simp only [fetch_prices, hne, if_false]
  exact lookupPrice_map_of_mem (fun s => (quote s).getD 0) _ _ hmem

/- ----------------------- row-access helper lemmas --------------------- -/

theorem dashRows_length (df : List Position) (q : String → Option ℚ) :
    (dashRows df q).length = df.length := by
  simp [dashRows]

theorem dashRows_getD (df : List Position) (q : String → Option ℚ)
    (i : Nat) (h : i < df.length) :
    (dashRows df q).getD i row0 =
      mkDashRow (df.getD i pos0) ((q (df.getD i pos0).symbol).getD 0) := by
  unfold dashRows
  rw [getD_map_lt _ df i h row0 pos0]
  rw [lookupPrice_fetch_current_prices df q (df.getD i pos0)
        (getD_mem_of_lt df i h pos0)]
  rfl

theorem summaryRows_length (df : List Position) (q : String → Option ℚ) :
    (summaryRows df q).length = df.length := by
  simp [summaryRows]

theorem summaryRows_getD (df : List Position) (q : String → Option ℚ)
    (i : Nat) (h : i < df.length) :
    (summaryRows df q).getD i row0 =
      mkValRow (df.getD i pos0) ((q (df.getD i pos0).symbol).getD 0) := by
  unfold summaryRows
  rw [getD_map_lt _ df i h row0 pos0]
  rw [lookupPrice_fetch_prices df q (df.getD i pos0)
        (getD_mem_of_lt df i h pos0)]
  rfl

theorem summary_eq_some (df : List Position) (q : String → Option ℚ)
    (h : df ≠ []) :
    summary df q = some
      { positions := summaryRows df q
        total_value := totalValueUngrouped (summaryRows df q)
        total_cost := totalCostUngrouped (summaryRows df q)
        total_pnl := totalValueUngrouped (summaryRows df q) -
          totalCostUngrouped (summaryRows df q) } := by
  have : ¬ df.isEmpty := by simpa [List.isEmpty_iff] using h
  simp [summary, this]

/- ----------------------- group-sum helper lemmas ---------------------- -/

theorem sum_filter_split (p : ValRow → Bool) (f : ValRow → ℚ) :
    ∀ l : List ValRow,
      ((l.filter p).map f).sum +
        ((l.filter (fun a => !(p a))).map f).sum = (l.map f).sum := by
  intro l
  induction l with
  | nil => simp
  | cons a t ih =>
      cases hp : p a <;> simp [List.filter_cons, hp, ← ih] <;> ring

theorem sum_over_groups (f : ValRow → ℚ) :
    ∀ (ks : List String) (l : List ValRow), ks.Nodup →
      (∀ r ∈ l, r.symbol ∈ ks) →
      (ks.map (fun s => ((l.filter (fun r => r.symbol == s)).map f).sum)).sum
        = (l.map f).sum := by
  intro ks
  induction ks with
  | nil =>
      intro l _ hcov
      have : l = [] := by
        cases l with
        | nil => rfl
        | cons a t => exact absurd (hcov a (by simp)) (by simp)
      simp [this]
  | cons k rest ih =>
      intro l hnd hcov
      have hknotin : k ∉ rest := (List.nodup_cons.mp hnd).1
      have hndrest : rest.Nodup := (List.nodup_cons.mp hnd).2
      set l2 := l.filter (fun r => !(r.symbol == k)) with hl2
      have hcov2 : ∀ r ∈ l2, r.symbol ∈ rest := by
        intro r hr
        have hrl : r ∈ l := List.mem_of_mem_filter hr
        have hrk : ¬ (r.symbol == k) = true := by
          have := List.of_mem_filter hr
          simpa using this
        have := hcov r hrl
        rcases List.mem_cons.mp this with h1 | h1
        · exact absurd (by simp [h1]) hrk
        · exact h1
      have hsame : ∀ s ∈ rest,
          ((l.filter (fun r => r.symbol == s)).map f).sum =
            ((l2.filter (fun r => r.symbol == s)).map f).sum := by
        intro s hs
        have hsk : s ≠ k := fun h => hknotin (h ▸ hs)
        have : l.filter (fun r => r.symbol == s) =
            l2.filter (fun r => r.symbol == s) := by
          rw [hl2, List.filter_filter]
          apply List.filter_congr
          intro r _
          cases hrs : (r.symbol == s) with
          | false => simp
          | true =>
              have : r.symbol = s := by simpa using hrs
              simp [this, hsk]
        rw [this]
      have hmapeq :
          (rest.map (fun s => ((l.filter (fun r => r.symbol == s)).map f).sum))
            = rest.map
              (fun s => ((l2.filter (fun r => r.symbol == s)).map f).sum) :=
        List.map_congr_left hsame
      calc
        ((k :: rest).map
            (fun s => ((l.filter (fun r => r.symbol == s)).map f).sum)).sum
            = ((l.filter (fun r => r.symbol == k)).map f).sum +
              (rest.map
                (fun s => ((l.filter (fun r => r.symbol == s)).map f).sum)).sum := by
              simp
        _ = ((l.filter (fun r => r.symbol == k)).map f).sum +
              (l2.map f).sum := by
              rw [hmapeq, ih l2 hndrest hcov2]
        _ = (l.map f).sum := sum_filter_split (fun r => r.symbol == k) f l

theorem sum_map_div_const (l : List AggRow) (f : AggRow → ℚ) (c : ℚ) :
    (l.map (fun a => f a / c)).sum = (l.map f).sum / c := by
  induction l with
  | nil => simp
  | cons a t ih => simp [ih, add_div]

theorem import_csv_symbols :
    ∀ (rows : List CsvRow) (t : List Position) (n : Nat),
      (import_csv_to_db t n rows).map (fun r => r.symbol) =
        t.map (fun r => r.symbol) ++ rows.map (fun r => r.symbol) := by
  intro rows
  induction rows with
  | nil => intro t n; simp [import_csv_to_db]
  | cons r rest ih =>
      intro t n
      simp [import_csv_to_db, ih]

/- ------------------- further concrete test values --------------------- -/

/-- A position whose cost basis is zero while its market value is not:
10 shares bought at cost_per_share 0. -/
def pZeroCost : Position :=
  { id := 1, symbol := "AAPL", shares := 10, cost_per_share := 0,
    trade_date := "2024-01-01", note := "" }

/-- A quote function under which every lookup succeeds at price 5. -/
def qFive : String → Option ℚ := fun _ => some 5

/-- A quote function under which every lookup fails. -/
def qNone : String → Option ℚ := fun _ => none

/-- First lot of the two-lot aggregation example: 5 shares at cost 100. -/
def p7a : Position :=
  { id := 1, symbol := "X", shares := 5, cost_per_share := 100,
    trade_date := "2024-01-01", note := "" }

/-- Second lot of the two-lot aggregation example: 5 shares at cost 120. -/
def p7b : Position :=
  { id := 2, symbol := "X", shares := 5, cost_per_share := 120,
    trade_date := "2024-01-02", note := "" }

/-- Quote function of the two-lot aggregation example: price 110. -/
def q7 : String → Option ℚ := fun _ => some 110

/-- A long position: 1 share of symbol A at cost 1. -/
def p6a : Position :=
  { id := 1, symbol := "A", shares := 1, cost_per_share := 1,
    trade_date := "2024-01-01", note := "" }

/-- A short position: -1 shares of symbol B at cost 1 (negative share
counts pass every validation in the program: the CLI add command accepts
any float and CSV import does not validate). -/
def p6b : Position :=
  { id := 2, symbol := "B", shares := -1, cost_per_share := 1,
    trade_date := "2024-01-01", note := "" }

/-- Quote function pricing every symbol at 100. -/
def q6 : String → Option ℚ := fun _ => some 100

/-- A CSV row whose symbol is lowercase. -/
def csvLower : CsvRow :=
  { symbol := "aapl", shares := 1, cost_per_share := 1,
    trade_date := "2024-01-01", note := "" }

/- ------------------------------ claims -------------------------------- -/

/-- Claim C1: the claim states that every position with cost_basis = 0 gets
pnl_pct = 0, finite. The code breaks this: at the failing input of one
position with shares 10 and cost_per_share 0 (so cost_basis = 0) priced at
5, the CLI computes pnl_pct = pnl_abs / cost_basis = 50 / 0 with no guard
(line 95), and the dashboard computes the same division with only a
`.fillna(0)` that replaces NaN but not infinity (line 173): both paths
yield +inf, not 0. This theorem evaluates both paths at that input. -/
theorem C1_zero_cost_basis_yields_posInf :
    ((summary [pZeroCost] qFive).map
        (fun s => s.positions.map (fun r => r.pnl_pct))) = some [PFloat.posInf] ∧
    (dashRows [pZeroCost] qFive).map (fun r => r.pnl_pct) = [PFloat.posInf] ∧
    PFloat.posInf ≠ PFloat.finite 0 := by
  refine ⟨?_, ?_, by simp⟩
  · norm_num [summary, summaryRows, fetch_prices, uniqueFirst, lookupPrice,
      mkValRow, fdiv, pZeroCost, qFive, List.find?]
  · norm_num [dashRows, fetch_current_prices, uniqueFirst, lookupPrice,
      mkDashRow, fdiv, fillna0, pZeroCost, qFive, List.find?]

/-- Claim C2, counterexample: for the empty positions table, `summary` does
not return an empty row sequence together with zero totals — it returns the
empty dict (modelled `none`), which carries no rows and no totals at all. -/
theorem C2_counterexample :
    summary [] qFive = none ∧
    summary [] qFive ≠ some { positions := [], total_value := 0,
                              total_cost := 0, total_pnl := 0 } := by
  constructor
  · simp [summary]
  · simp [summary]

/-- Claim C2 as amended: for the empty sequence of positions, `summary`
returns the empty dict (no rows and no totals, modelled `none`) without
raising, and the CLI view branch reports "No positions." to the user. -/
theorem C2_empty_input_reports_no_positions :
    ∀ quote : String → Option ℚ,
      summary [] quote = none ∧ viewCmd [] quote = ViewOutput.noPositions := by
  intro quote
  constructor
  · simp [summary]
  · simp [viewCmd, upperSymbols, summary]

/-- Claim C3: summing current_value over the per-symbol aggregation equals
the total_value computed over the ungrouped rows, and likewise for
cost_basis — the groupby-sum aggregation preserves both totals, for every
sequence of valuation rows. -/
theorem C3_aggregation_preserves_totals :
    ∀ rows : List ValRow,
      total_value_agg rows = totalValueUngrouped rows ∧
      total_cost_agg rows = totalCostUngrouped rows := by
  intro rows
  have hnd := uniqueFirst_nodup (rows.map (fun r => r.symbol))
  have hcov : ∀ r ∈ rows, r.symbol ∈ uniqueFirst (rows.map (fun r => r.symbol)) :=
    fun r hr => (mem_uniqueFirst _ _).mpr (List.mem_map.mpr ⟨r, hr, rfl⟩)
  constructor
  · have h := sum_over_groups (fun r => r.current_value) _ rows hnd hcov
    simpa [total_value_agg, agg, totalValueUngrouped, sumBy, List.map_map,
      Function.comp] using h
  · have h := sum_over_groups (fun r => r.cost_basis) _ rows hnd hcov
    simpa [total_cost_agg, agg, totalCostUngrouped, sumBy, List.map_map,
      Function.comp] using h

/-- Claim C4: for every positions sequence and every quote outcome, the
metric computation produces exactly one output row per input position, with
output row i carrying the identity columns (id, symbol, shares,
cost_per_share) of input position i — order-preserving, no filtering — in
the dashboard metric block and, for nonempty input, in the CLI summary. -/
theorem C4_one_row_per_position_order_preserving :
    ∀ (df : List Position) (q : String → Option ℚ),
      (dashRows df q).length = df.length ∧
      (∀ i, i < df.length →
        ((dashRows df q).getD i row0).id = (df.getD i pos0).id ∧
        ((dashRows df q).getD i row0).symbol = (df.getD i pos0).symbol ∧
        ((dashRows df q).getD i row0).shares = (df.getD i pos0).shares ∧
        ((dashRows df q).getD i row0).cost_per_share =
          (df.getD i pos0).cost_per_share) ∧
      (df ≠ [] → ∃ s, summary df q = some s ∧ s.positions.length = df.length ∧
        ∀ i, i < df.length →
          (s.positions.getD i row0).id = (df.getD i pos0).id ∧
          (s.positions.getD i row0).symbol = (df.getD i pos0).symbol ∧
          (s.positions.getD i row0).shares = (df.getD i pos0).shares ∧
          (s.positions.getD i row0).cost_per_share =
            (df.getD i pos0).cost_per_share) := by
  intro df q
  refine ⟨dashRows_length df q, ?_, ?_⟩
  · intro i hi
    rw [dashRows_getD df q i hi]
    simp [mkDashRow]
  · intro hne
    refine ⟨_, summary_eq_some df q hne, summaryRows_length df q, ?_⟩
    intro i hi
    rw [summaryRows_getD df q i hi]
    simp [mkValRow]

/-- Witness for C4 at the concrete input [pw] with quote qFive. -/
theorem C4_witness :
    (dashRows [pw] qFive).length = [pw].length ∧
    ((dashRows [pw] qFive).getD 0 row0).symbol = ([pw].getD 0 pos0).symbol ∧
    (∃ s, summary [pw] qFive = some s ∧ s.positions.length = [pw].length ∧
      ∀ i, i < [pw].length →
        (s.positions.getD i row0).id = ([pw].getD i pos0).id ∧
        (s.positions.getD i row0).symbol = ([pw].getD i pos0).symbol ∧
        (s.positions.getD i row0).shares = ([pw].getD i pos0).shares ∧
        (s.positions.getD i row0).cost_per_share =
          ([pw].getD i pos0).cost_per_share) :=
  ⟨(C4_one_row_per_position_order_preserving [pw] qFive).1,
   ((C4_one_row_per_position_order_preserving [pw] qFive).2.1 0
      (by decide)).2.1,
   (C4_one_row_per_position_order_preserving [pw] qFive).2.2 (by decide)⟩

/-- Claim C5: when the quote lookup for a position's symbol fails, the
price used is the 0.0 sentinel, so that row has current_value = 0 and
pnl_abs = -cost_basis, in both the dashboard metric block and the CLI
summary, and the failed lookup does not make the computation fail: summary
still returns a result for nonempty input. -/
theorem C5_missing_price_uses_zero_sentinel :
    ∀ (df : List Position) (q : String → Option ℚ) (i : Nat),
      i < df.length → q ((df.getD i pos0).symbol) = none →
      (((dashRows df q).getD i row0).current_price = 0 ∧
       ((dashRows df q).getD i row0).current_value = 0 ∧
       ((dashRows df q).getD i row0).pnl_abs =
         -(((dashRows df q).getD i row0).cost_basis)) ∧
      (∃ s, summary df q = some s ∧
        (s.positions.getD i row0).current_price = 0 ∧
        (s.positions.getD i row0).current_value = 0 ∧
        (s.positions.getD i row0).pnl_abs =
          -((s.positions.getD i row0).cost_basis)) := by
  intro df q i hi hnone
  have hne : df ≠ [] := by
    intro h
    rw [h] at hi
    simp at hi
  constructor
  · rw [dashRows_getD df q i hi, hnone]
    simp [mkDashRow]
  · refine ⟨_, summary_eq_some df q hne, ?_⟩
    rw [summaryRows_getD df q i hi, hnone]
    simp [mkValRow]

/-- Witness for C5 at the concrete input [pw] with every quote failing. -/
theorem C5_witness :
    (((dashRows [pw] qNone).getD 0 row0).current_price = 0 ∧
     ((dashRows [pw] qNone).getD 0 row0).current_value = 0 ∧
     ((dashRows [pw] qNone).getD 0 row0).pnl_abs =
       -(((dashRows [pw] qNone).getD 0 row0).cost_basis)) ∧
    (∃ s, summary [pw] qNone = some s ∧
      (s.positions.getD 0 row0).current_price = 0 ∧
      (s.positions.getD 0 row0).current_value = 0 ∧
      (s.positions.getD 0 row0).pnl_abs =
        -((s.positions.getD 0 row0).cost_basis)) :=
  C5_missing_price_uses_zero_sentinel [pw] qNone 0 (by decide) rfl

/-- Claim C6, counterexample: with a long position (1 share of A) and a
short position (-1 shares of B) both priced at 100, the aggregated
total_value is 0, yet the allocation percentages are not all 0: the guard
divides by 1 when the total is 0, so each allocation_pct equals that
symbol's current_value (here 100 and -100). -/
theorem C6_counterexample :
    total_value_agg (dashRows [p6a, p6b] q6) = 0 ∧
    ¬ (∀ a ∈ aggWithAllocation (dashRows [p6a, p6b] q6),
        a.allocation_pct = 0) := by
  have heval : (aggWithAllocation (dashRows [p6a, p6b] q6)).map
      (fun a => a.allocation_pct) = [100, -100] := by
    norm_num [aggWithAllocation, total_value_agg, agg, sumBy, dashRows,
      fetch_current_prices, uniqueFirst, lookupPrice, mkDashRow, fdiv,
      fillna0, p6a, p6b, q6, List.find?, List.filter_cons,
      show (("A" : String) == "B") = false from by decide,
      show (("B" : String) == "A") = false from by decide,
      show ¬ (("A" : String) = "B") from by decide,
      show ¬ (("B" : String) = "A") from by decide]
  constructor
  · norm_num [total_value_agg, agg, sumBy, dashRows, fetch_current_prices,
      uniqueFirst, lookupPrice, mkDashRow, fdiv, fillna0, p6a, p6b, q6,
      List.find?, List.filter_cons,
      show (("A" : String) == "B") = false from by decide,
      show (("B" : String) == "A") = false from by decide,
      show ¬ (("A" : String) = "B") from by decide,
      show ¬ (("B" : String) = "A") from by decide]
  · intro hall
    have hmem : (100 : ℚ) ∈ (aggWithAllocation (dashRows [p6a, p6b] q6)).map
        (fun a => a.allocation_pct) := by
      rw [heval]
      simp
    obtain ⟨a, ha, hfa⟩ := List.mem_map.mp hmem
    rw [hall a ha] at hfa
    norm_num at hfa

/-- Claim C6 as amended: allocation_pct across all symbols sums to exactly
1 whenever the aggregated total_value is nonzero (in particular whenever it
is positive); when total_value = 0, each symbol's allocation_pct equals
that symbol's aggregated current_value (the guard divides by 1), so the
percentages are all 0 exactly when every aggregated current_value is 0. -/
theorem C6_allocation_sum_one_or_current_value :
    ∀ rows : List ValRow,
      (total_value_agg rows ≠ 0 →
        ((aggWithAllocation rows).map (fun a => a.allocation_pct)).sum = 1) ∧
      (total_value_agg rows = 0 →
        ∀ a ∈ aggWithAllocation rows, a.allocation_pct = a.current_value) := by
  intro rows
  constructor
  · intro hT
    have h1 : (aggWithAllocation rows).map (fun a => a.allocation_pct) =
        (agg rows).map (fun a => a.current_value / total_value_agg rows) := by
      simp only [aggWithAllocation, List.map_map]
      apply List.map_congr_left
      intro a _
      simp [Function.comp, hT]
    rw [h1, sum_map_div_const]
    exact div_self hT
  · intro hT a ha
    obtain ⟨b, _, rfl⟩ := List.mem_map.mp ha
    show b.current_value /
        (if total_value_agg rows ≠ 0 then total_value_agg rows else 1) =
      b.current_value
    rw [if_neg (by simp [hT]), div_one]

/-- Witness for C6 at the concrete input [pw] with quote qFive: the total
is 10, nonzero, and the allocation percentages sum to 1. -/
theorem C6_witness :
    total_value_agg (dashRows [pw] qFive) ≠ 0 ∧
    ((aggWithAllocation (dashRows [pw] qFive)).map
        (fun a => a.allocation_pct)).sum = 1 := by
  have hT : total_value_agg (dashRows [pw] qFive) = 10 := by
    norm_num [total_value_agg, agg, sumBy, dashRows, fetch_current_prices,
      uniqueFirst, lookupPrice, mkDashRow, fdiv, fillna0, pw, qFive,
      List.find?, List.filter_cons]
  refine ⟨by rw [hT]; norm_num, ?_⟩
  exact (C6_allocation_sum_one_or_current_value (dashRows [pw] qFive)).1
    (by rw [hT]; norm_num)

/-- Claim C7: the aggregation groups by symbol, sums the four value
columns, and recomputes pnl_pct from the summed values: for the two lots of
symbol X (5 shares at cost 100 and 5 shares at cost 120) priced at 110, the
aggregate row is cost_basis = 1100, current_value = 1100, pnl_abs = 0,
pnl_pct = 0, even though the two per-lot percentages are the nonzero 1/10
and -1/12 (so the aggregate is not an average of per-lot percentages). -/
theorem C7_two_lot_aggregation_example :
    agg (dashRows [p7a, p7b] q7) =
      [{ symbol := "X", shares := 10, cost_basis := 1100,
         current_value := 1100, pnl_abs := 0, pnl_pct := PFloat.finite 0 }] ∧
    (dashRows [p7a, p7b] q7).map (fun r => r.pnl_pct) =
      [PFloat.finite (1/10), PFloat.finite (-(1/12))] := by
  constructor
  · norm_num [agg, sumBy, dashRows, fetch_current_prices, uniqueFirst,
      lookupPrice, mkDashRow, fdiv, fillna0, p7a, p7b, q7, List.find?,
      List.filter_cons]
  · norm_num [dashRows, fetch_current_prices, uniqueFirst, lookupPrice,
      mkDashRow, fdiv, fillna0, p7a, p7b, q7, List.find?]

/-- Claim C8, counterexample: the CSV import write path persists the symbol
exactly as it appears in the file; importing a row with symbol "aapl"
stores "aapl", which differs from its own uppercasing "AAPL". -/
theorem C8_counterexample :
    (import_csv_to_db [] 1 [csvLower]).map (fun r => r.symbol) = ["aapl"] ∧
    ¬ ("aapl" = strUpper "aapl") := by
  constructor
  · simp [import_csv_to_db, csvLower]
  · decide

/-- Claim C8 as amended: the add_position and add_trade write paths persist
the symbol in uppercase form, but the CSV import write path persists the
symbols of the imported rows unchanged; rows written through it are only
normalized later, on read (read_positions_df and PortfolioAnalyzer). -/
theorem C8_uppercase_on_write_except_csv :
    ∀ (t : List Position) (n : Nat) (sym : String) (sh c : ℚ)
      (d note : String) (rows : List CsvRow),
      (add_position t n sym sh c d note).map (fun r => r.symbol) =
        t.map (fun r => r.symbol) ++ [strUpper sym] ∧
      (add_trade t n sym sh c d note).map (fun r => r.symbol) =
        t.map (fun r => r.symbol) ++ [strUpper sym] ∧
      (import_csv_to_db t n rows).map (fun r => r.symbol) =
        t.map (fun r => r.symbol) ++ rows.map (fun r => r.symbol) := by
  intro t n sym sh c d note rows
  refine ⟨?_, ?_, import_csv_symbols rows t n⟩
  · simp [add_position]
  · simp [add_trade]

/-- Claim C9: computing the valuation does not mutate the caller's
positions dataframe. In the heap model, constructing the analyzer copies
the caller's frame into a fresh cell (the in-place symbol uppercasing then
hits only that fresh cell) and `summary` writes no positions cell at all,
so after init and summary the caller's cell is unchanged — and the
analyzer's reference is distinct from the caller's. -/
theorem C9_summary_does_not_mutate_caller :
    ∀ (h : Heap) (r : Nat) (q : String → Option ℚ), r < h.cells.length →
      hget ((summaryH ((analyzerInitH h r).1) ((analyzerInitH h r).2) q).1) r
        = hget h r ∧
      (analyzerInitH h r).2 ≠ r := by
  intro h r q hr
  have hne : r ≠ h.cells.length := Nat.ne_of_lt hr
  constructor
  · show ((((h.cells ++ [hget h r]).set h.cells.length
        (upperSymbols ((h.cells ++ [hget h r]).getD h.cells.length [])))).getD
          r []) = h.cells.getD r []
    rw [getD_set_ne _ _ _ hne]
    exact List.getD_append _ _ _ _ hr
  · exact fun heq => hne heq.symm

/-- Witness for C9 on a one-cell heap holding [pw]. -/
theorem C9_witness :
    hget ((summaryH ((analyzerInitH ⟨[[pw]]⟩ 0).1)
        ((analyzerInitH ⟨[[pw]]⟩ 0).2) qFive).1) 0 = hget ⟨[[pw]]⟩ 0 ∧
    (analyzerInitH ⟨[[pw]]⟩ 0).2 ≠ 0 :=
  C9_summary_does_not_mutate_caller ⟨[[pw]]⟩ 0 qFive (by decide)

/-- Claim C10: delete_position returns a sublist of the table in which
every row whose id differs from the given id is retained; when no stored
row has the given id the table is unchanged (and no error is raised, the
operation being total); and, under the primary-key invariant that stored
ids are distinct, at most one row is removed. -/
theorem C10_delete_position_at_most_one :
    ∀ (t : List Position) (pid : Nat),
      List.Sublist (delete_position t pid) t ∧
      (∀ r ∈ t, r.id ≠ pid → r ∈ delete_position t pid) ∧
      ((∀ r ∈ t, r.id ≠ pid) → delete_position t pid = t) ∧
      ((t.map (fun r => r.id)).Nodup →
        t.length ≤ (delete_position t pid).length + 1) := by
  intro t pid
  refine ⟨List.filter_sublist t, ?_, ?_, ?_⟩
  · intro r hr hne
    exact List.mem_filter.mpr ⟨hr, by simp [hne]⟩
  · intro hall
    exact List.filter_eq_self.mpr (fun a ha => by simp [hall a ha])
  · induction t with
    | nil => intro _; simp [delete_position]
    | cons a t' ih =>
        intro hnd
        have hnotin : a.id ∉ t'.map (fun r => r.id) :=
          (List.nodup_cons.mp (by simpa using hnd)).1
        have hnd' : (t'.map (fun r => r.id)).Nodup :=
          (List.nodup_cons.mp (by simpa using hnd)).2
        by_cases ha : a.id = pid
        · have hkeep : t'.filter (fun r => !(r.id == pid)) = t' := by
            apply List.filter_eq_self.mpr
            intro b hb
            have : b.id ≠ pid := by
              intro hbid
              exact hnotin (List.mem_map.mpr ⟨b, hb, by rw [hbid, ha]⟩)
            simp [this]
          simp [delete_position, List.filter_cons, ha, hkeep]
        · have := ih hnd'
          simp only [delete_position] at this ⊢
          simp [List.filter_cons, ha]
          omega

/-- Witness for C10: deleting a missing id from [pw] leaves it unchanged,
and the length bound holds under the distinct-id invariant. -/
theorem C10_witness :
    delete_position [pw] 99 = [pw] ∧
    [pw].length ≤ (delete_position [pw] 99).length + 1 :=
  ⟨(C10_delete_position_at_most_one [pw] 99).2.2.1 (by decide),
   (C10_delete_position_at_most_one [pw] 99).2.2.2 (by decide)⟩

end Portfolio
